import Mathlib

/-!
Verification development for the opencode-bot gateway bridge (Go sources).

The Go code relevant to the frozen claims is shallowly embedded below:
pure helpers become Lean functions on `String` / `List Char`, the stateful
pieces (keyed serializer map, relay cache, HTTP call sequences) become
explicit state passing over executable data, and fallible calls become
`Option` / `Except` values.  Machine integers (`int64`) are modelled as
`Int`; none of the embedded operations can overflow on the inputs the
claims quantify over.
-/

namespace OCB

/-! ### Go `strings` primitives

Models of the handful of functions from Go's `strings` / `strconv` /
`unicode` packages that the embedded code uses.  Whitespace is the ASCII
whitespace recognized by `unicode.IsSpace` (all inputs in this code base
are ASCII); `ToUpper` / `ToLower` act on ASCII letters as in Go. -/

/-- Models `unicode.IsSpace` on the ASCII range. -/
def isSpaceGo (c : Char) : Bool :=
  c = ' ' || c = '\t' || c = '\n' || c = '\r' || c = '\x0b' || c = '\x0c'

/-- Drop leading whitespace from a character list. -/
def trimLeftList : List Char → List Char
  | [] => []
  | c :: cs => if isSpaceGo c then trimLeftList cs else c :: cs

/-- Models `strings.TrimSpace` on character lists. -/
def trimList (cs : List Char) : List Char :=
  ((trimLeftList ((trimLeftList cs).reverse)).reverse)

/-- Models `strings.TrimSpace`. -/
def trimSpace (s : String) : String := ⟨trimList s.data⟩

/-- Fields accumulator: splits on whitespace, dropping empty fields. -/
def fieldsAux : List Char → List Char → List (List Char)
  | [], acc => if acc.isEmpty then [] else [acc.reverse]
  | c :: cs, acc =>
    if isSpaceGo c then
      if acc.isEmpty then fieldsAux cs [] else acc.reverse :: fieldsAux cs []
    else fieldsAux cs (c :: acc)

/-- Models `strings.Fields`. -/
def fieldsStr (s : String) : List String :=
  (fieldsAux s.data []).map (fun cs => ⟨cs⟩)

/-- Models `strings.Contains` on character lists. -/
def containsList (pat : List Char) : List Char → Bool
  | [] => pat.isEmpty
  | c :: cs => pat.isPrefixOf (c :: cs) || containsList pat cs

/-- Models `strings.Contains s pat`. -/
def strContains (s pat : String) : Bool := containsList pat.data s.data

/-- Fueled worker for `ReplaceAll`; the fuel is the input length, which
always suffices because the (non-empty) pattern consumes at least one
character per replacement. -/
def replaceAllAux (pat rep : List Char) : Nat → List Char → List Char
  | 0, l => l
  | _ + 1, [] => []
  | fuel + 1, c :: cs =>
    if pat.isPrefixOf (c :: cs) && !pat.isEmpty then
      rep ++ replaceAllAux pat rep fuel ((c :: cs).drop pat.length)
    else
      c :: replaceAllAux pat rep fuel cs

/-- Models `strings.ReplaceAll s pat rep` for the non-empty patterns used
in the source (the Go empty-pattern behavior is never exercised). -/
def goReplaceAll (s pat rep : String) : String :=
  ⟨replaceAllAux pat.data rep.data s.data.length s.data⟩

/-- Models `strings.ToUpper` on ASCII input. -/
def toUpperStr (s : String) : String := ⟨s.data.map Char.toUpper⟩

/-- Models `strings.ToLower` on ASCII input. -/
def toLowerStr (s : String) : String := ⟨s.data.map Char.toLower⟩

/-- Models `strings.HasPrefix s pat`. -/
def hasPrefixStr (s pat : String) : Bool := pat.data.isPrefixOf s.data

/-- Models `strings.TrimPrefix s pat`. -/
def trimPrefixStr (s pat : String) : String :=
  if hasPrefixStr s pat then ⟨s.data.drop pat.data.length⟩ else s

/-! ### Association-list maps

Go `map` values guarded by a mutex are embedded as association lists with
unique keys: assignment replaces, `delete` removes. -/

/-- Lookup in an association list (Go map read). -/
def lookupA {α : Type} (k : String) : List (String × α) → Option α
  | [] => none
  | (k', v) :: t => if k' = k then some v else lookupA k t

/-- Remove a key (Go `delete`). -/
def eraseA {α : Type} (k : String) (m : List (String × α)) : List (String × α) :=
  m.filter (fun p => p.1 ≠ k)

/-- Map assignment `m[k] = v` (replaces any existing binding). -/
def insertA {α : Type} (k : String) (v : α) (m : List (String × α)) :
    List (String × α) :=
  (k, v) :: eraseA k m

/-! ### Keyed serializer (`service.KeyedQueue`, src/unnamed/part_012)

`Run(ctx, key, fn)` performs, under the mutex, two atomic operations on
the `chains` map:

* lines 18–22 (*install*): read `previous := chains[key]`, create a fresh
  channel `next`, assign `chains[key] = next`;
* lines 32–39 (*cleanup*, the deferred function): `close(next)`, then
  delete `chains[key]` if it still equals `next`.

Between the two, the call waits for `previous` (lines 24–30); if the
context is canceled during that wait it returns `ctx.Err()` **before the
`defer` at line 32 is registered**, so a canceled call performs `install`
but never `cleanup`.  A call that proceeds past the wait always runs
`cleanup` when it returns (whatever `fn` does).

We embed the map history as a sequence of these atomic operations.  The
fresh channel created by invocation `i` is identified with `i` itself
(each invocation creates exactly one channel). -/

/-- One atomic `chains`-map operation performed by invocation `inv`. -/
inductive QOp where
  | install (inv : Nat)
  | cleanup (inv : Nat)
deriving DecidableEq

/-- The `chains` map: key ↦ channel of the latest installer. -/
abbrev Chains := List (String × Nat)

/-- Effect of one operation on the `chains` map, given the key of each
invocation.  `install` replaces the binding; `cleanup` deletes it only if
the binding still holds this invocation's own channel. -/
def applyQOp (keyOf : Nat → String) (m : Chains) : QOp → Chains
  | .install inv => insertA (keyOf inv) inv m
  | .cleanup inv =>
    if lookupA (keyOf inv) m = some inv then eraseA (keyOf inv) m else m

/-- The `chains` map after a whole interleaved history of operations,
starting from the empty map `NewKeyedQueue` creates. -/
def runQOps (keyOf : Nat → String) (ops : List QOp) : Chains :=
  ops.foldl (applyQOp keyOf) []

/-! ### OpenCode backend client (`internal/opencode`, src/unnamed/part_013)

`Client.request` (lines 1251–1292) returns the raw body on success; on a
status ≥ 400 it returns the error `fmt.Errorf("%s (status %d)", msg,
status)` where `msg` is the trimmed body, or `"opencode status <d>"` when
the body is blank.  Transport failures return the transport error.  We
embed one HTTP exchange as an `OCResp` and the error-string computation
verbatim; the bodies of successful responses are opaque strings. -/

/-- Outcome of one `Client.request` HTTP exchange. -/
inductive OCResp where
  | ok (body : String)
  | httpErr (status : Nat) (body : String)
  | transport (msg : String)
deriving DecidableEq

/-- The `" (status %d)"` tail `request` appends to every HTTP error. -/
def statusSuffix (status : Nat) : String :=
  " (status " ++ toString status ++ ")"

/-- Error string produced by `request` (lines 1281–1287), `none` on
success. -/
def respError : OCResp → Option String
  | .ok _ => none
  | .httpErr status body =>
    let msg := trimSpace body
    let msg := if msg = "" then "opencode status " ++ toString status else msg
    some (msg ++ statusSuffix status)
  | .transport msg => some msg

/-- Calls `RunPrompt` makes against the backend, in order. -/
inductive OCCall where
  | createSession
  | postMessage (sid : String)
deriving DecidableEq

/-- `CreateSession` (lines 869–884) distilled to its outcome: a session id
or an error (covering transport errors, bad JSON and the empty-`id`
check).  `RunPrompt` only ever propagates this outcome. -/
abbrev CreateOutcome := Except String String

/-- The POST-and-maybe-retry tail of `RunPrompt` (lines 852–866): post the
message to `resolved`; on an error whose text contains `"status 404"`,
create a fresh session and retry exactly once.  `creates` and `posts` are
the outcomes the backend returns to successive `CreateSession` /
`POST .../message` calls; exhausting an oracle stands for a call whose
outcome the scenario leaves unspecified (still logged in the call list). -/
def runPromptPost (creates : List CreateOutcome) (posts : List OCResp)
    (resolved : String) : Except String String × List OCCall :=
  match posts with
  | [] => (.error "postMessage: unspecified", [OCCall.postMessage resolved])
  | p :: posts' =>
    match respError p with
    | none => (.ok resolved, [OCCall.postMessage resolved])
    | some e =>
      if strContains e "status 404" then
        match creates with
        | [] => (.error "createSession: unspecified",
            [OCCall.postMessage resolved, OCCall.createSession])
        | .error ce :: _ => (.error ce,
            [OCCall.postMessage resolved, OCCall.createSession])
        | .ok created :: _ =>
          let calls := [OCCall.postMessage resolved, OCCall.createSession,
            OCCall.postMessage created]
          match posts' with
          | [] => (.error "postMessage: unspecified", calls)
          | p2 :: _ =>
            match respError p2 with
            | none => (.ok created, calls)
            | some e2 => (.error e2, calls)
      else (.error e, [OCCall.postMessage resolved])

/-- `Client.RunPrompt` (lines 833–867): trim the session id, create a
session first when it is empty, then post (with the 404-retry tail).
The prompt text and model only shape the JSON body, which no claim
observes, so they are omitted.  Returns the result together with the
ordered list of backend calls made. -/
def runPromptGo (creates : List CreateOutcome) (posts : List OCResp)
    (sessionID : String) : Except String String × List OCCall :=
  let resolved := trimSpace sessionID
  if resolved = "" then
    match creates with
    | [] => (.error "createSession: unspecified", [OCCall.createSession])
    | .error e :: _ => (.error e, [OCCall.createSession])
    | .ok created :: creates' =>
      let r := runPromptPost creates' posts created
      (r.1, OCCall.createSession :: r.2)
  else runPromptPost creates posts resolved

/-! ### Assistant snapshots and the synchronous waiter

`AssistantSnapshot` is lines 809–812 of part_013.  The waiter
`BridgeService.waitForAssistantResponse` (bridge_service.go lines
603–682) polls `GetAssistantSnapshot` and `GetSessionState` every two
seconds.  We embed one poll iteration's backend answers as a `PollRound`
(`none` models the corresponding call returning an error) and run the
loop over a finite list of rounds; the typing pings, the 2-second sleep
and the 5-minute deadline do not affect which result is returned within
the observed rounds, so exhausting the rounds yields `.running`. -/

structure AssistantSnapshot where
  count : Int
  last : String
deriving DecidableEq

/-- Backend answers observed during one iteration of the wait loop.
`idleSnap` is the extra snapshot fetched inside the idle-state branch
(lines 656–661). -/
structure PollRound where
  snap : Option AssistantSnapshot
  state : Option String
  idleSnap : Option AssistantSnapshot
deriving DecidableEq

inductive WaitOutcome where
  | text (s : String)
  | errorState (state : String)
  | running
deriving DecidableEq

/-- `isIdleState` (bridge_service.go lines 684–687). -/
def isIdleStateGo (state : String) : Bool :=
  let t := toLowerStr (trimSpace state)
  t = "idle" || t = "completed" || t = "done" || t = "ready"

/-- `isErrorState` (bridge_service.go lines 689–692). -/
def isErrorStateGo (state : String) : Bool :=
  let t := toLowerStr (trimSpace state)
  strContains t "error" || strContains t "failed" || strContains t "abort"

/-- The state-check half of one wait iteration (lines 645–661), after the
snapshot bookkeeping updated `lastSnapshot`.  Returns `some` when the
loop returns, `none` to continue with the given `lastSnapshot`. -/
def waitStateCheck (round : PollRound) (lastSnapshot : AssistantSnapshot) :
    Option WaitOutcome :=
  match round.state with
  | none => none
  | some st =>
    if isErrorStateGo st then
      if trimSpace lastSnapshot.last ≠ "" then
        some (.text (trimSpace lastSnapshot.last))
      else some (.errorState st)
    else if isIdleStateGo st then
      match round.idleSnap with
      | some snp =>
        if trimSpace snp.last ≠ "" then some (.text (trimSpace snp.last)) else none
      | none => none
    else none

/-- The wait loop of `waitForAssistantResponse` (lines 631–681) over a
finite list of observed poll rounds. -/
def waitRounds (previous : AssistantSnapshot) :
    AssistantSnapshot → List PollRound → WaitOutcome
  | _, [] => .running
  | lastSnapshot, round :: rest =>
    let lastSnapshot' :=
      match round.snap with
      | some now => now
      | none => lastSnapshot
    match round.snap with
    | some now =>
      if now.count > previous.count ∧ trimSpace now.last ≠ "" then
        .text (trimSpace now.last)
      else if trimSpace now.last ≠ "" ∧ trimSpace now.last ≠ trimSpace previous.last then
        .text (trimSpace now.last)
      else
        match waitStateCheck round lastSnapshot' with
        | some out => out
        | none => waitRounds previous lastSnapshot' rest
    | none =>
      match waitStateCheck round lastSnapshot' with
      | some out => out
      | none => waitRounds previous lastSnapshot' rest

/-! ### SSE event parsing (`parseSSEData`, part_013 lines 1294–1329)

The Go code unmarshals the accumulated `data:` payload into
`map[string]any` and then inspects it.  We embed the post-unmarshal JSON
value (`Json`) and the inspection functions; a payload that is not a JSON
object corresponds to an unmarshal failure (`parseSSEData` returns
`false`).  Number fidelity is irrelevant to the inspected fields. -/

/-- `opencode.Event` (part_013 lines 784–789). -/
structure Event where
  type : String
  sessionID : String
  text : String
  final : Bool
deriving DecidableEq

/-- A decoded JSON value (the result of `json.Unmarshal` into `any`).
Object fields have unique keys, as Go maps do. -/
inductive Json where
  | null
  | bool (b : Bool)
  | num (n : Int)
  | str (s : String)
  | arr (items : List Json)
  | obj (fields : List (String × Json))

/-- `firstString` (lines 1331–1345): first key whose value is a string
with non-blank trim; returns that trimmed string, else `""`. -/
def firstStringJ (raw : List (String × Json)) : List String → String
  | [] => ""
  | k :: ks =>
    match lookupA k raw with
    | some (Json.str s) =>
      if trimSpace s ≠ "" then trimSpace s else firstStringJ raw ks
    | _ => firstStringJ raw ks

/-- `extractText` (lines 1347–1368): prefer `text`/`content`/`message`,
else join the `parts[]` entries' `text`/`content` with newlines. -/
def extractTextJ (raw : List (String × Json)) : String :=
  let direct := firstStringJ raw ["text", "content", "message"]
  if direct ≠ "" then direct
  else
    match lookupA "parts" raw with
    | some (Json.arr items) =>
      let chunks := items.filterMap (fun item =>
        match item with
        | Json.obj part =>
          let t := firstStringJ part ["text", "content"]
          if t ≠ "" then some t else none
        | _ => none)
      String.intercalate "\n" chunks
    | _ => ""

/-- `parseSSEData` (lines 1294–1329) applied to the decoded payload.
`none` covers the `(Event{}, false)` returns (empty/bad JSON, blank event
type); `some ev` is the single event the stream loop then emits. -/
def parseSSEData (j : Json) : Option Event :=
  match j with
  | Json.obj raw =>
    let eventType := firstStringJ raw ["type", "event", "name"]
    if eventType = "" then none
    else
      let payload :=
        match lookupA "data" raw with
        | some (Json.obj nested) => nested
        | _ => raw
      let sessionID := firstStringJ payload ["sessionID", "sessionId", "session", "id"]
      let text := extractTextJ payload
      let final0 :=
        match lookupA "final" payload with
        | some (Json.bool b) => b
        | _ => false
      let final1 :=
        match lookupA "isFinal" payload with
        | some (Json.bool b) => final0 || b
        | _ => final0
      let status := firstStringJ payload ["status", "state"]
      let final2 := if status = "final" ∨ status = "completed" then true else final1
      some ⟨eventType, sessionID, trimSpace text, final2⟩
  | _ => none

/-! ### Relay engine (`service.RelayService`, relay_service.go)

The cache guarded by `s.mu` is an association list from session id to
`relayCacheEntry` (the `Updated` instant is never read, so it is
omitted).  Repository recipient lookup and `GetLastAssistantMessage` are
embedded as total functions of the environment: a lookup error or a fetch
error is not distinguished from an empty result by any claim except where
noted.  The fallback timer is modelled as always elapsing (no context
cancellation), matching the dispatch-relevant path. -/

/-- `relayCacheEntry` (relay_service.go lines 15–19) without the unread
`Updated` field. -/
structure CacheEntry where
  text : String
  final : Bool
deriving DecidableEq

abbrev RelayCache := List (String × CacheEntry)

/-- Relay configuration: `modeFinal` is the resolved
`mode == domain.RelayModeFinal` comparison, `fallback` is
`RELAY_FALLBACK`. -/
structure RelayCfg where
  modeFinal : Bool
  fallback : Bool
deriving DecidableEq

/-- External collaborators of the relay: `FindRecipientsBySession`
(recipient chat ids, in order) and `GetLastAssistantMessage` (raw text;
an error is embedded as `""`, exactly the value `fetchFinalText` then
produces). -/
structure RelayEnv where
  recipients : String → List Int
  fetchFinal : String → String

/-- `cachedText` (lines 157–163). -/
def cachedText (cache : RelayCache) (sid : String) : String :=
  match lookupA sid cache with
  | some e => e.text
  | none => ""

/-- `fetchFinalText` (lines 172–179): trimmed fetched text. -/
def fetchFinalText (env : RelayEnv) (sid : String) : String :=
  trimSpace (env.fetchFinal sid)

/-- `dispatch` (lines 138–155): drop blank text; otherwise send the text
to every recipient and delete the cache entry.  Individual send failures
only log, so sends are recorded unconditionally. -/
def dispatchGo (env : RelayEnv) (cache : RelayCache) (sid text : String) :
    List (Int × String) × RelayCache :=
  if trimSpace text = "" then ([], cache)
  else ((env.recipients sid).map (fun chat => (chat, text)), eraseA sid cache)

/-- The fallback tail of `onSessionIdle` (lines 119–135): nothing when
fallback is disabled; else wait out the timer, then dispatch the cached
text, fetching from the backend when the cache is empty. -/
def idleFallback (cfg : RelayCfg) (env : RelayEnv) (cache : RelayCache)
    (sid : String) : List (Int × String) × RelayCache :=
  if !cfg.fallback then ([], cache)
  else
    let t := cachedText cache sid
    let t := if t = "" then fetchFinalText env sid else t
    dispatchGo env cache sid t

/-- `onSessionIdle` (lines 103–136). -/
def onSessionIdle (cfg : RelayCfg) (env : RelayEnv) (cache : RelayCache)
    (sid : String) : List (Int × String) × RelayCache :=
  if !cfg.modeFinal then
    let t := cachedText cache sid
    let t := if t = "" then fetchFinalText env sid else t
    dispatchGo env cache sid t
  else
    match lookupA sid cache with
    | some e =>
      if e.final && decide (trimSpace e.text ≠ "") then dispatchGo env cache sid e.text
      else idleFallback cfg env cache sid
    | none => idleFallback cfg env cache sid

/-- `updateCache` (lines 94–101): ignore events whose text trims to
blank, else overwrite the entry. -/
def updateCache (ev : Event) (cache : RelayCache) : RelayCache :=
  if trimSpace ev.text = "" then cache
  else insertA ev.sessionID ⟨ev.text, ev.final⟩ cache

/-- `handleEvent` (lines 81–92). -/
def handleEvent (cfg : RelayCfg) (env : RelayEnv) (cache : RelayCache)
    (ev : Event) : List (Int × String) × RelayCache :=
  if ev.sessionID = "" then ([], cache)
  else if ev.type = "message.updated" then ([], updateCache ev cache)
  else if ev.type = "session.idle" then onSessionIdle cfg env cache ev.sessionID
  else ([], cache)

/-- The relay loop over a finite event sequence: final cache and the
concatenated sends. -/
def processEvents (cfg : RelayCfg) (env : RelayEnv) :
    RelayCache → List Event → RelayCache × List (Int × String)
  | cache, [] => (cache, [])
  | cache, ev :: rest =>
    let step := handleEvent cfg env cache ev
    let tail := processEvents cfg env step.2 rest
    (tail.1, step.1 ++ tail.2)

/-! ### Callback-query dispatch (`BridgeService.handleCallbackQuery`,
bridge_service.go lines 169–202)

The query's `Message` field is a pointer in the Go update shape and may
be absent, hence `Option`.  Authorization (`requireAllowed`, which also
sends "No autorizado." to the chat when it refuses) is embedded as a
total predicate — a repository error, which yields `false` with no send,
is not distinguished by any claim.  `SessionService.SetSession`'s outcome
is the flag `setOk`; the call itself is recorded either way. -/

/-- A Telegram callback query as consumed by the dispatcher:
`messageChat` is `query.Message.Chat.ID` when the message is present. -/
structure CallbackQuery where
  id : String
  fromId : Int
  messageChat : Option Int
  data : String
deriving DecidableEq

/-- Observable effects of handling one callback query, in order within
each channel: `answerCallbackQuery` calls, `SetSession` calls, plain
message sends. -/
structure CallbackEffects where
  answers : List (String × String)
  setCalls : List (Int × Int × String)
  sends : List (Int × String)
deriving DecidableEq

def emptyEffects : CallbackEffects := ⟨[], [], []⟩

/-- The compiled regexp `^ses_[A-Za-z0-9]+$` (bridge_service.go line 18). -/
def matchesSessionID (s : String) : Bool :=
  match s.data with
  | 's' :: 'e' :: 's' :: '_' :: rest =>
    !rest.isEmpty && rest.all (fun c => c.isAlpha || c.isDigit)
  | _ => false

/-- `handleCallbackQuery` (lines 169–202). -/
def handleCallbackQuery (allowed : Int → Bool) (setOk : Bool)
    (q : CallbackQuery) : CallbackEffects :=
  match q.messageChat with
  | none => emptyEffects
  | some chat =>
    let data := trimSpace q.data
    if data = "" then emptyEffects
    else if !hasPrefixStr data "session_use:" then
      { emptyEffects with answers := [(q.id, "Accion no soportada")] }
    else
      let sid := trimPrefixStr data "session_use:"
      if !matchesSessionID sid then
        { emptyEffects with answers := [(q.id, "Sesion invalida")] }
      else if !allowed q.fromId then
        { answers := [(q.id, "No autorizado")], setCalls := [],
          sends := [(chat, "No autorizado.")] }
      else if setOk then
        { answers := [(q.id, "Sesion seleccionada")],
          setCalls := [(chat, q.fromId, sid)],
          sends := [(chat, "Sesion seleccionada: " ++ sid)] }
      else
        { answers := [(q.id, "No se pudo cambiar sesion")],
          setCalls := [(chat, q.fromId, sid)], sends := [] }

/-! ### Telegram polling transport (`telegram.API`, runtime.go)

`getUpdates` (runtime.go lines 104–126) builds its JSON body from
literals; `PollUpdates` (lines 52–76) advances the offset across
batches. -/

/-- The request body `getUpdates` sends (runtime.go lines 105–109). -/
structure GetUpdatesBody where
  offset : Int
  timeout : Nat
  allowedUpdates : List String
deriving DecidableEq

def getUpdatesBody (offset : Int) : GetUpdatesBody :=
  { offset := offset, timeout := 30, allowedUpdates := ["message"] }

/-- Offset bookkeeping of `PollUpdates` over one batch (lines 69–74):
each update with `UpdateID ≥ offset` bumps the offset to `UpdateID + 1`. -/
def advanceOffset (offset : Int) (ids : List Int) : Int :=
  ids.foldl (fun acc id => if id ≥ acc then id + 1 else acc) offset

/-- The offset carried into the request after a sequence of batches,
starting from the initial `var offset int64` (= 0). -/
def pollOffset (batches : List (List Int)) : Int :=
  batches.foldl advanceOffset 0

/-! ### Timestamp parsing (`parseTimestamp`, part_013 lines 1411–1435)

`parseTimestamp` normalizes the raw text (`normalizeUpdatedText`, lines
1464–1479) and then tries, in order: `strconv.ParseInt` (scaled by
`normalizeUnixMillis`, lines 1481–1496), the clock layout `"3:04 PM"`
(placed on today's local date), the layout `"3:04 PM · 1/2/2006"`,
`strconv.ParseFloat` (scaled likewise), and RFC3339.  `time.Now` enters
only through the clock branch and is abstracted as `nowMidnightMs`, the
epoch-milliseconds of today's local midnight (DST transitions within the
day are not modelled).  The float branch is modelled with exact decimal
arithmetic (no binary rounding, hex floats or Inf/NaN), which agrees
with Go on every branch any claim exercises. -/

/-- Digits-only accumulator for `strconv` parsing. -/
def parseDigitsAux : List Char → Nat → Option Nat
  | [], acc => some acc
  | c :: cs, acc =>
    if c.isDigit then parseDigitsAux cs (acc * 10 + (c.toNat - 48)) else none

/-- A non-empty all-digit run, as a number. -/
def parseDigitsNat : List Char → Option Nat
  | [] => none
  | c :: cs => parseDigitsAux (c :: cs) 0

def int64Max : Int := 9223372036854775807

/-- Models `strconv.ParseInt(s, 10, 64)`: optional sign, decimal digits,
64-bit range (a range error makes Go return a non-nil error, embedded as
`none`). -/
def parseInt64 (s : String) : Option Int :=
  let core : Bool → List Char → Option Int := fun neg ds =>
    match parseDigitsNat ds with
    | none => none
    | some n =>
      if neg then if (n : Int) ≤ int64Max + 1 then some (-(n : Int)) else none
      else if (n : Int) ≤ int64Max then some (n : Int) else none
  match s.data with
  | '+' :: ds => core false ds
  | '-' :: ds => core true ds
  | ds => core false ds

/-- `normalizeUnixMillis` (lines 1481–1496); Go division truncates toward
zero, i.e. `Int.tdiv`. -/
def normalizeUnixMillis (raw : Int) : Int :=
  let a := if raw < 0 then -raw else raw
  if a < 10000000000 then raw * 1000
  else if a > 9999999999999999 then Int.tdiv raw 1000000
  else if a > 9999999999999 then Int.tdiv raw 1000
  else raw

/-- Models `strings.Join(strings.Fields s, " ")`. -/
def joinFields (s : String) : String := String.intercalate " " (fieldsStr s)

/-- First occurrence split, models `strings.SplitN(s, pat, 2)` restricted
to the case where `pat` occurs (the only case the source consumes). -/
def splitOnFirstList (pat : List Char) : List Char → Option (List Char × List Char)
  | [] => if pat.isEmpty then some ([], []) else none
  | c :: cs =>
    if pat.isPrefixOf (c :: cs) && !pat.isEmpty then
      some ([], (c :: cs).drop pat.length)
    else
      match splitOnFirstList pat cs with
      | some ab => some (c :: ab.1, ab.2)
      | none => none

/-- `normalizeUpdatedText` (lines 1464–1479). -/
def normalizeUpdatedText (value : String) : String :=
  let t := trimSpace value
  let t := joinFields t
  let t := goReplaceAll t "•" "·"
  let t := goReplaceAll t " ·" " · "
  let t := goReplaceAll t "· " " · "
  if strContains t " · " then
    match splitOnFirstList " · ".data t.data with
    | some ab => toUpperStr ⟨ab.1⟩ ++ " · " ++ (⟨ab.2⟩ : String)
    | none => t
  else toUpperStr t

/-- Leading digit run and the remainder. -/
def splitLeadingDigits : List Char → List Char × List Char
  | [] => ([], [])
  | c :: cs =>
    if c.isDigit then
      let r := splitLeadingDigits cs
      (c :: r.1, r.2)
    else ([], c :: cs)

def digitsToNat (ds : List Char) : Nat :=
  ds.foldl (fun a c => a * 10 + (c.toNat - 48)) 0

/-- Leading run of literal spaces removed (Go `time`'s `cutspace`). -/
def cutSpaceGo : List Char → List Char
  | ' ' :: r => cutSpaceGo r
  | r => r

/-- Literal matching of a layout fragment against the value, as Go
`time`'s `skip` does: a space in the layout requires the value to start
with a space (or be empty) and then swallows every following space in
the value; other characters must match exactly.  (The layouts used here
never contain consecutive spaces, for which this agrees with `skip`.) -/
def skipLit : List Char → List Char → Option (List Char)
  | [], v => some v
  | ' ' :: p, [] => skipLit p []
  | ' ' :: p, c :: v' => if c = ' ' then skipLit p (cutSpaceGo v') else none
  | c :: p, c' :: v' => if c = c' then skipLit p v' else none
  | _ :: _, [] => none

/-- The `"3:04 PM"` part of Go's clock layouts, left to right: one or two
hour digits in `0..12`, `:`, a two-digit minute in `0..59`, flexible
spaces, the uppercase meridiem.  Returns the 24-hour clock and the
unconsumed remainder. -/
def parseClockCore (cs : List Char) : Option ((Nat × Nat) × List Char) :=
  let hr := splitLeadingDigits cs
  if hr.1.length = 0 || hr.1.length > 2 then none
  else
    match hr.2 with
    | ':' :: m1 :: m2 :: rest =>
      if m1.isDigit && m2.isDigit then
        match skipLit [' '] rest with
        | none => none
        | some r2 =>
          match r2 with
          | ap :: 'M' :: r3 =>
            if ap = 'A' || ap = 'P' then
              let hour := digitsToNat hr.1
              let minute := digitsToNat [m1, m2]
              if hour ≤ 12 && minute ≤ 59 then
                let h24 :=
                  if ap = 'P' then (if hour < 12 then hour + 12 else hour)
                  else (if hour = 12 then 0 else hour)
                some ((h24, minute), r3)
              else none
            else none
          | _ => none
      else none
    | _ => none

/-- Models `time.Parse("3:04 PM", s)` restricted to its outcome, the
24-hour clock `(hour, minute)`; the whole input must be consumed. -/
def parseClock12 (s : String) : Option (Nat × Nat) :=
  match parseClockCore s.data with
  | some (hm, []) => some hm
  | _ => none

def isLeapYear (y : Int) : Bool :=
  y % 4 = 0 && (y % 100 ≠ 0 || y % 400 = 0)

def daysInMonth (y : Int) (m : Nat) : Nat :=
  if m = 1 ∨ m = 3 ∨ m = 5 ∨ m = 7 ∨ m = 8 ∨ m = 10 ∨ m = 12 then 31
  else if m = 2 then (if isLeapYear y then 29 else 28)
  else 30

/-- Days since the Unix epoch of a civil date (proleptic Gregorian,
standard era-based computation; all divisions act on non-negative values
for the 4-digit years produced by the parsers). -/
def daysFromCivil (y : Int) (m d : Nat) : Int :=
  let yAdj : Int := if m ≤ 2 then y - 1 else y
  let era : Int := (if 0 ≤ yAdj then yAdj else yAdj - 399) / 400
  let yoe : Int := yAdj - era * 400
  let mp : Nat := (m + 9) % 12
  let doy : Int := (153 * (mp : Int) + 2) / 5 + ((d : Int) - 1)
  let doe : Int := yoe * 365 + yoe / 4 - yoe / 100 + doy
  era * 146097 + doe - 719468

/-- The `1/2/2006` date tail of the CLI layout: month and day with one or
two digits (range-checked as Go does), a four-digit year, nothing left. -/
def parseDateMDY (cs : List Char) : Option (Nat × Nat × Int) :=
  let mo := splitLeadingDigits cs
  if mo.1.length = 0 || mo.1.length > 2 then none
  else
    match mo.2 with
    | '/' :: r2 =>
      let dd := splitLeadingDigits r2
      if dd.1.length = 0 || dd.1.length > 2 then none
      else
        match dd.2 with
        | '/' :: r4 =>
          let yy := splitLeadingDigits r4
          if yy.1.length = 4 && yy.2.isEmpty then
            let m := digitsToNat mo.1
            let d := digitsToNat dd.1
            let y : Int := (digitsToNat yy.1 : Int)
            if 1 ≤ m && m ≤ 12 && 1 ≤ d && d ≤ daysInMonth y m then some (m, d, y)
            else none
          else none
        | _ => none
    | _ => none

/-- Models `time.Parse("3:04 PM · 1/2/2006", s).UnixMilli()` (UTC, as Go
parses layouts without zone information): the clock part, the flexible
`" · "` literal, then the date. -/
def parseClockDate (s : String) : Option Int :=
  match parseClockCore s.data with
  | some hmrest =>
    match skipLit " · ".data hmrest.2 with
    | some r2 =>
      match parseDateMDY r2 with
      | some mdy =>
        some (daysFromCivil mdy.2.2 mdy.1 mdy.2.1 * 86400000 +
          ((hmrest.1.1 * 60 + hmrest.1.2 : Nat) : Int) * 60000)
      | none => none
    | none => none
  | none => none

/-- Scale a mantissa by a signed power of ten, truncating toward zero. -/
def applyExp (n : Nat) (shift : Int) : Nat :=
  if 0 ≤ shift then n * 10 ^ shift.toNat else n / 10 ^ (-shift).toNat

/-- Models `int64(f)` for `f, err := strconv.ParseFloat(s, 64)` with
`err == nil`, on decimal forms (sign, digits, optional fraction and
exponent), computed exactly. -/
def parseFloatTrunc (s : String) : Option Int :=
  let signed : Int × List Char :=
    match s.data with
    | '+' :: r => (1, r)
    | '-' :: r => (-1, r)
    | r => (1, r)
  let ip := splitLeadingDigits signed.2
  let frac : List Char × List Char :=
    match ip.2 with
    | '.' :: r => splitLeadingDigits r
    | _ => ([], ip.2)
  let rest := match ip.2 with | '.' :: _ => frac.2 | _ => ip.2
  if ip.1.isEmpty && frac.1.isEmpty then none
  else
    let mant := digitsToNat (ip.1 ++ frac.1)
    let fracLen : Int := (frac.1.length : Int)
    match rest with
    | [] => some (signed.1 * (applyExp mant (-fracLen) : Int))
    | c :: r3 =>
      if c = 'e' || c = 'E' then
        let esigned : Int × List Char :=
          match r3 with
          | '+' :: r => (1, r)
          | '-' :: r => (-1, r)
          | r => (1, r)
        let eds := splitLeadingDigits esigned.2
        if eds.1.isEmpty || !eds.2.isEmpty then none
        else
          some (signed.1 *
            (applyExp mant (esigned.1 * (digitsToNat eds.1 : Int) - fracLen) : Int))
      else none

/-- Two ASCII digits as a number. -/
def twoDigits (a b : Char) : Option Nat :=
  if a.isDigit && b.isDigit then some ((a.toNat - 48) * 10 + (b.toNat - 48)) else none

/-- Fractional-second tail: optional `.digits`, truncated to whole
milliseconds (as `UnixMilli` truncates nanoseconds). -/
def parseFracMs : List Char → Option (Nat × List Char)
  | '.' :: r =>
    let fd := splitLeadingDigits r
    if fd.1.isEmpty then none
    else some (digitsToNat ((fd.1 ++ ['0', '0', '0']).take 3), fd.2)
  | r => some (0, r)

/-- Zone suffix: `Z` or `±hh:mm`, as minutes east of UTC. -/
def parseZoneOff : List Char → Option Int
  | ['Z'] => some 0
  | '+' :: z1 :: z2 :: ':' :: z3 :: z4 :: [] =>
    match twoDigits z1 z2, twoDigits z3 z4 with
    | some zh, some zm => if zh ≤ 23 && zm ≤ 59 then some ((zh * 60 + zm : Nat) : Int) else none
    | _, _ => none
  | '-' :: z1 :: z2 :: ':' :: z3 :: z4 :: [] =>
    match twoDigits z1 z2, twoDigits z3 z4 with
    | some zh, some zm => if zh ≤ 23 && zm ≤ 59 then some (-((zh * 60 + zm : Nat) : Int)) else none
    | _, _ => none
  | _ => none

/-- Models `time.Parse(time.RFC3339, s).UnixMilli()`:
`YYYY-MM-DDThh:mm:ss[.frac](Z|±hh:mm)` with Go's range checks. -/
def parseRFC3339 (s : String) : Option Int :=
  match s.data with
  | y1 :: y2 :: y3 :: y4 :: '-' :: o1 :: o2 :: '-' :: a1 :: a2 :: 'T' ::
      h1 :: h2 :: ':' :: i1 :: i2 :: ':' :: c1 :: c2 :: rest =>
    if [y1, y2, y3, y4, o1, o2, a1, a2, h1, h2, i1, i2, c1, c2].all Char.isDigit then
      let year : Int := (digitsToNat [y1, y2, y3, y4] : Int)
      let mo := digitsToNat [o1, o2]
      let dd := digitsToNat [a1, a2]
      let hh := digitsToNat [h1, h2]
      let mi := digitsToNat [i1, i2]
      let ss := digitsToNat [c1, c2]
      if 1 ≤ mo && mo ≤ 12 && 1 ≤ dd && dd ≤ daysInMonth year mo &&
          hh ≤ 23 && mi ≤ 59 && ss ≤ 59 then
        match parseFracMs rest with
        | none => none
        | some msz =>
          match parseZoneOff msz.2 with
          | none => none
          | some off =>
            some (daysFromCivil year mo dd * 86400000 +
              ((hh * 3600 + mi * 60 + ss : Nat) : Int) * 1000 + (msz.1 : Int) -
              off * 60000)
      else none
    else none
  | _ => none

/-- `parseTimestamp` (lines 1411–1435): normalize, then try integer,
clock, clock-with-date, float and RFC3339 forms in the source's order;
`0` when nothing parses. -/
def parseTimestamp (nowMidnightMs : Int) (value : String) : Int :=
  let trimmed := normalizeUpdatedText value
  if trimmed = "" then 0
  else
    match parseInt64 trimmed with
    | some unixRaw => normalizeUnixMillis unixRaw
    | none =>
      match parseClock12 trimmed with
      | some hm => nowMidnightMs + ((hm.1 * 60 + hm.2 : Nat) : Int) * 60000
      | none =>
        match parseClockDate trimmed with
        | some ms => ms
        | none =>
          match parseFloatTrunc trimmed with
          | some f => normalizeUnixMillis f
          | none =>
            match parseRFC3339 trimmed with
            | some ms => ms
            | none => 0

/-! ## Theorems -/

/-! ### Shared string and map lemmas -/

theorem dataAppend (a b : String) : (a ++ b).data = a.data ++ b.data := by
  cases a; cases b; rfl

theorem containsList_append_right (pat : List Char) :
    ∀ (l r : List Char), containsList pat r = true → containsList pat (l ++ r) = true := by
  intro l
  induction l with
  | nil => intro r h; simpa using h
  | cons c t ih =>
    intro r h
    rw [List.cons_append, containsList, Bool.or_eq_true]
    exact Or.inr (ih r h)

theorem strContains_append_right (a b pat : String)
    (h : strContains b pat = true) : strContains (a ++ b) pat = true := by
  rw [strContains, dataAppend]
  exact containsList_append_right _ _ _ h

theorem lookupA_eraseA_ne {α : Type} (k k' : String) (m : List (String × α))
    (h : k' ≠ k) : lookupA k (eraseA k' m) = lookupA k m := by
  induction m with
  | nil => rfl
  | cons p t ih =>
    rw [eraseA] at ih ⊢
    rw [List.filter_cons]
    by_cases hp : p.1 = k'
    · rw [if_neg (by simp [hp])]
      rw [lookupA, if_neg (fun hk => h (hp ▸ hk))]
      exact ih
    · rw [if_pos (by simpa using hp)]
      rw [lookupA, lookupA]
      by_cases hpk : p.1 = k
      · rw [if_pos hpk, if_pos hpk]
      · rw [if_neg hpk, if_neg hpk]; exact ih

theorem lookupA_eraseA_self {α : Type} (k : String) (m : List (String × α)) :
    lookupA k (eraseA k m) = none := by
  induction m with
  | nil => rfl
  | cons p t ih =>
    rw [eraseA] at ih ⊢
    rw [List.filter_cons]
    by_cases hp : p.1 = k
    · rw [if_neg (by simp [hp])]; exact ih
    · rw [if_pos (by simpa using hp), lookupA, if_neg hp]; exact ih

theorem lookupA_eraseA_some {α : Type} (k k' : String) (m : List (String × α))
    (i : α) (h : lookupA k (eraseA k' m) = some i) : lookupA k m = some i := by
  by_cases hk : k' = k
  · rw [hk, lookupA_eraseA_self] at h; exact absurd h (by simp)
  · rwa [lookupA_eraseA_ne _ _ _ hk] at h

theorem lookupA_insertA {α : Type} (k k' : String) (v : α) (m : List (String × α)) :
    lookupA k (insertA k' v m) = if k' = k then some v else lookupA k m := by
  rw [insertA, lookupA]
  by_cases h : k' = k
  · rw [if_pos h, if_pos h]
  · rw [if_neg h, if_neg h]; exact lookupA_eraseA_ne _ _ _ h

/-! ### Claim C1: keyed serializer cleanup -/

theorem qops_cleanup_aux (keyOf : Nat → String) (k : String) :
    ∀ (ops : List QOp) (m : Chains),
      (∀ i, lookupA k m = some i → keyOf i = k) →
      (∀ i, lookupA k m = some i → QOp.cleanup i ∈ ops) →
      (∀ l i r, ops = l ++ QOp.install i :: r → keyOf i = k → QOp.cleanup i ∈ r) →
      lookupA k (ops.foldl (applyQOp keyOf) m) = none := by
  intro ops
  induction ops with
  | nil =>
    intro m _ hclean _
    rcases h : lookupA k m with _ | i
    · simpa using h
    · exact absurd (hclean i h) (by simp)
  | cons op rest ih =>
    intro m hmk hclean hfollow
    rw [List.foldl_cons]
    rcases op with j | j
    · -- install j
      apply ih
      · intro i hi
        simp only [applyQOp] at hi
        rw [lookupA_insertA] at hi
        by_cases hj : keyOf j = k
        · rw [if_pos hj] at hi
          exact (Option.some.inj hi) ▸ hj
        · rw [if_neg hj] at hi
          exact hmk i hi
      · intro i hi
        simp only [applyQOp] at hi
        rw [lookupA_insertA] at hi
        by_cases hj : keyOf j = k
        · rw [if_pos hj] at hi
          exact (Option.some.inj hi) ▸ hfollow [] j rest rfl hj
        · rw [if_neg hj] at hi
          have := hclean i hi
          rcases List.mem_cons.mp this with hc | hc
          · exact absurd hc (by simp)
          · exact hc
      · intro l i r h hk
        exact hfollow (QOp.install j :: l) i r (by rw [h, List.cons_append]) hk
    · -- cleanup j
      apply ih
      · intro i hi
        simp only [applyQOp] at hi
        split at hi
        · exact hmk i (lookupA_eraseA_some _ _ _ _ hi)
        · exact hmk i hi
      · intro i hi
        simp only [applyQOp] at hi
        have hmem : lookupA k m = some i := by
          split at hi
          · exact lookupA_eraseA_some _ _ _ _ hi
          · exact hi
        have hij : i ≠ j := by
          intro hij
          subst hij
          have hkey : keyOf i = k := hmk i hmem
          rw [hkey, if_pos hmem, lookupA_eraseA_self] at hi
          exact absurd hi (by simp)
        rcases List.mem_cons.mp (hclean i hmem) with hc | hc
        · exact absurd hc (by simp [hij])
        · exact hc
      · intro l i r h hk
        exact hfollow (QOp.cleanup j :: l) i r (by rw [h, List.cons_append]) hk

/-- Claim C1 (amended): for every key, once every `Run(key, ctx, fn)`
invocation for that key has returned **and each of them ran its deferred
cleanup** — i.e. none of them returned a cancellation error while waiting
on a predecessor — the serializer's key-to-signal map contains no entry
for that key.  (A `Run` canceled while waiting performs `install` but
never `cleanup`, because the `defer` is only registered after the wait;
the counterexample shows its entry surviving.)  Formally: if every
`install` of an invocation **whose key is the given one** is followed in
the history by the matching `cleanup`, the final map holds no entry for
that key — regardless of what invocations for other keys did, including
canceled ones that leaked their own entries. -/
theorem keyedQueue_cleanup_on_completion (keyOf : Nat → String)
    (ops : List QOp) (k : String)
    (hfollow : ∀ l i r, ops = l ++ QOp.install i :: r → keyOf i = k →
      QOp.cleanup i ∈ r) :
    lookupA k (runQOps keyOf ops) = none :=
  qops_cleanup_aux keyOf k ops []
    (fun i hi => by simp [lookupA] at hi)
    (fun i hi => by simp [lookupA] at hi)
    hfollow

/-- Witness for C1: invocation 0 on key `"k"` installs and cleans up;
invocation 1 on the **other** key `"j"` is canceled while waiting and
leaks its entry.  Key `"k"`, whose invocations all completed, still ends
with no entry. -/
theorem keyedQueue_cleanup_witness :
    lookupA "k" (runQOps (fun i => if i = 0 then "k" else "j")
      [QOp.install 0, QOp.install 1, QOp.cleanup 0]) = none := by
  apply keyedQueue_cleanup_on_completion
  intro l i r h hk
  cases l with
  | nil =>
    rw [List.nil_append] at h
    injection h with h1 h2
    injection h1 with h1
    rw [← h2, ← h1]
    decide
  | cons a l' =>
    cases l' with
    | nil =>
      rw [List.cons_append, List.nil_append] at h
      injection h with h1 h2
      injection h2 with h2 h3
      injection h2 with h2
      rw [← h2] at hk
      simp at hk
    | cons b l'' =>
      rw [List.cons_append, List.cons_append] at h
      injection h with h1 h2
      injection h2 with h2 h3
      cases l'' with
      | nil =>
        rw [List.nil_append] at h3
        injection h3 with h4 h5
        exact absurd h4 (by simp)
      | cons c l3 =>
        rw [List.cons_append] at h3
        injection h3 with h4 h5
        simp at h5

/-- Counterexample to C1 as stated: on key `"k"`, invocation 0 runs
`fn` directly (no predecessor); invocation 1 installs its signal, then
its context is canceled while waiting on invocation 0, so `Run` returns
`ctx.Err()` before registering the cleanup `defer`; invocation 0 then
finishes, but its conditional delete fails because the map now holds
invocation 1's channel.  Both `Run` calls have returned (one normally,
one with a cancellation error), yet the map still holds an entry for
`"k"` — the claim asserts it holds none. -/
theorem keyedQueue_cleanup_counterexample :
    lookupA "k" (runQOps (fun _ => "k")
      [QOp.install 0, QOp.install 1, QOp.cleanup 0]) = some 1 := rfl

/-! ### Claim C2: stale-session recovery in `RunPrompt` -/

theorem runPromptPost_404 (body retryBody newId resolved : String) :
    runPromptPost [Except.ok newId] [OCResp.httpErr 404 body, OCResp.ok retryBody]
        resolved =
      (Except.ok newId,
        [OCCall.postMessage resolved, OCCall.createSession,
          OCCall.postMessage newId]) := by
  have hc : strContains
      ((if trimSpace body = "" then "opencode status " ++ toString 404
        else trimSpace body) ++ statusSuffix 404) "status 404" = true :=
    strContains_append_right _ _ _ (by decide)
  simp only [runPromptPost, respError]
  rw [if_pos hc]

theorem runPromptPost_head (creates : List CreateOutcome) (posts : List OCResp)
    (resolved : String) :
    (runPromptPost creates posts resolved).2.head? =
      some (OCCall.postMessage resolved) := by
  rcases posts with _ | ⟨p, posts'⟩
  · rfl
  · rcases hre : respError p with _ | e
    · simp only [runPromptPost, hre]
      rfl
    · simp only [runPromptPost, hre]
      by_cases hc : strContains e "status 404" = true
      · rw [if_pos hc]
        rcases creates with _ | ⟨c, creates'⟩
        · rfl
        · rcases c with ce | created
          · rfl
          · rcases posts' with _ | ⟨p2, posts''⟩
            · rfl
            · show (match respError p2 with
                | none => ((Except.ok created : Except String String),
                    [OCCall.postMessage resolved, OCCall.createSession,
                      OCCall.postMessage created])
                | some e2 => (Except.error e2,
                    [OCCall.postMessage resolved, OCCall.createSession,
                      OCCall.postMessage created])).2.head? =
                some (OCCall.postMessage resolved)
              rcases respError p2 with _ | e2
              · rfl
              · rfl
      · rw [if_neg hc]
        rfl

/-- Claim C2 (amended): `RunPrompt`'s stale-session retry is keyed on the
POST error *text* containing `"status 404"`, not on the HTTP status code
itself.  Consequently: (1) a genuine 404 response (whose error text
always ends in `" (status 404)"`) triggers exactly one `CreateSession`
and exactly one retried POST, and the new session id is returned; (2) a
failing POST whose error text does **not** contain `"status 404"` is
returned as-is, with no session created and no retry; (3) an empty
(after trimming) session id makes `RunPrompt` call `CreateSession`
first.  The counterexample shows the divergence from the claim as
stated: a 500 response whose body contains the text `"status 404"` is
also treated as stale and retried.  Part (3) is settled by three
conjuncts: the first backend call is `CreateSession`; when it succeeds
the very next call is a POST **to the created session id**; and on a
successful POST the created id is returned. -/
theorem runPrompt_retry_discipline :
    (∀ (sid body retryBody newId : String), trimSpace sid ≠ "" →
      runPromptGo [Except.ok newId] [OCResp.httpErr 404 body, OCResp.ok retryBody] sid =
        (Except.ok newId,
          [OCCall.postMessage (trimSpace sid), OCCall.createSession,
            OCCall.postMessage newId]))
    ∧ (∀ (sid e : String) (p : OCResp) (creates : List CreateOutcome)
        (posts : List OCResp),
      trimSpace sid ≠ "" → respError p = some e →
      strContains e "status 404" = false →
      runPromptGo creates (p :: posts) sid =
        (Except.error e, [OCCall.postMessage (trimSpace sid)]))
    ∧ (∀ (creates : List CreateOutcome) (posts : List OCResp) (sid : String),
      trimSpace sid = "" →
      (runPromptGo creates posts sid).2.head? = some OCCall.createSession)
    ∧ (∀ (creates' : List CreateOutcome) (posts : List OCResp)
        (sid created : String),
      trimSpace sid = "" →
      (runPromptGo (Except.ok created :: creates') posts sid).2.take 2 =
        [OCCall.createSession, OCCall.postMessage created])
    ∧ (∀ (posts' : List OCResp) (sid created body : String),
      trimSpace sid = "" →
      runPromptGo [Except.ok created] (OCResp.ok body :: posts') sid =
        (Except.ok created,
          [OCCall.createSession, OCCall.postMessage created])) := by
  refine ⟨?_, ?_, ?_, ?_, ?_⟩
  · intro sid body retryBody newId h
    rw [runPromptGo.eq_def]
    simp only
    rw [if_neg h]
    exact runPromptPost_404 body retryBody newId (trimSpace sid)
  · intro sid e p creates posts h hre hc
    rw [runPromptGo.eq_def]
    simp only
    rw [if_neg h]
    rw [runPromptPost.eq_def]
    simp only [hre]
    rw [if_neg (by simp [hc])]
  · intro creates posts sid h
    rw [runPromptGo.eq_def]
    simp only
    rw [if_pos h]
    rcases creates with _ | ⟨c, creates'⟩
    · rfl
    · rcases c with ce | created
      · rfl
      · rfl
  · intro creates' posts sid created h
    rw [runPromptGo.eq_def]
    simp only
    rw [if_pos h]
    show (OCCall.createSession :: (runPromptPost creates' posts created).2).take 2 = _
    rw [show (OCCall.createSession :: (runPromptPost creates' posts created).2).take 2 =
      OCCall.createSession :: (runPromptPost creates' posts created).2.take 1 from rfl]
    rw [List.take_one, runPromptPost_head]
    rfl
  · intro posts' sid created body h
    rw [runPromptGo.eq_def]
    simp only
    rw [if_pos h]
    rfl

/-- Witness for C2: a stale session id `"ses_O"`, a 404 with body
`"Session not found"`, a fresh session `"ses_N"` — one create, one
retry, new id returned. -/
theorem runPrompt_retry_discipline_witness :
    runPromptGo [Except.ok "ses_N"]
        [OCResp.httpErr 404 "Session not found", OCResp.ok "{}"] "ses_O" =
      (Except.ok "ses_N",
        [OCCall.postMessage (trimSpace "ses_O"), OCCall.createSession,
          OCCall.postMessage "ses_N"]) :=
  runPrompt_retry_discipline.1 "ses_O" "Session not found" "{}" "ses_N" (by decide)

/-- Counterexample to C2 as stated: the session is `"ses_OLD"` and the
POST fails with HTTP status **500** whose response body is the text
`"status 404"`.  The claim says that for a status other than 404 the
error is returned without creating a session and without retrying; the
code instead matches the substring `"status 404"` in the error text
(which embeds the body), creates a session and retries. -/
theorem runPrompt_retry_counterexample :
    runPromptGo [Except.ok "ses_NEW"]
        [OCResp.httpErr 500 "status 404", OCResp.ok "{}"] "ses_OLD" =
      (Except.ok "ses_NEW",
        [OCCall.postMessage "ses_OLD", OCCall.createSession,
          OCCall.postMessage "ses_NEW"]) := rfl

/-! ### Claim C3: synchronous waiter on error-like states -/

theorem waiter_aux (previous : AssistantSnapshot)
    (rounds : List PollRound) :
    ∀ lastSnapshot : AssistantSnapshot,
      trimSpace lastSnapshot.last = "" →
      (∀ r ∈ rounds, ∀ s, r.snap = some s → trimSpace s.last = "") →
      (∀ r ∈ rounds, ∀ s, r.idleSnap = some s → trimSpace s.last = "") →
      (∃ r ∈ rounds, ∃ st, r.state = some st ∧ isErrorStateGo st = true) →
      ∃ st, waitRounds previous lastSnapshot rounds = WaitOutcome.errorState st ∧
        isErrorStateGo st = true := by
  induction rounds with
  | nil =>
    intro _ _ _ _ herr
    simp at herr
  | cons round rest ih =>
    intro lastSnapshot hlast hsnap hidle herr
    have hsnap0 : ∀ s, round.snap = some s → trimSpace s.last = "" :=
      fun s hs => hsnap round (List.mem_cons_self _ _) s hs
    have hidle0 : ∀ s, round.idleSnap = some s → trimSpace s.last = "" :=
      fun s hs => hidle round (List.mem_cons_self _ _) s hs
    have hsnapR : ∀ r ∈ rest, ∀ s, r.snap = some s → trimSpace s.last = "" :=
      fun r hr => hsnap r (List.mem_cons_of_mem _ hr)
    have hidleR : ∀ r ∈ rest, ∀ s, r.idleSnap = some s → trimSpace s.last = "" :=
      fun r hr => hidle r (List.mem_cons_of_mem _ hr)
    have herrTail : (∀ st, round.state = some st → isErrorStateGo st = false) →
        ∃ r ∈ rest, ∃ st, r.state = some st ∧ isErrorStateGo st = true := by
      intro hne
      obtain ⟨r, hr, st', hst', he'⟩ := herr
      rcases List.mem_cons.mp hr with hEq | hmem
      · subst hEq
        rw [hne st' hst'] at he'
        exact absurd he' (by simp)
      · exact ⟨r, hmem, st', hst', he'⟩
    rcases hs : round.snap with _ | now
    · -- snapshot call failed: lastSnapshot unchanged
      rw [waitRounds]
      simp only [hs]
      rcases hst : round.state with _ | st
      · simp only [waitStateCheck, hst]
        exact ih lastSnapshot hlast hsnapR hidleR
          (herrTail (fun st' h => by rw [hst] at h; exact absurd h (by simp)))
      · by_cases he : isErrorStateGo st = true
        · refine ⟨st, ?_, he⟩
          simp only [waitStateCheck, hst]
          rw [if_pos he, if_neg (by simp [hlast])]
        · simp only [waitStateCheck, hst]
          rw [if_neg (by simp [he])]
          have hcont := herrTail (fun st' h => by
            rw [hst] at h
            cases Option.some.inj h
            simpa using he)
          by_cases hi : isIdleStateGo st = true
          · rw [if_pos hi]
            rcases hq : round.idleSnap with _ | snp
            · exact ih lastSnapshot hlast hsnapR hidleR hcont
            · simp only [hidle0 snp hq]
              simp only [ne_eq, not_true_eq_false, if_false]
              exact ih lastSnapshot hlast hsnapR hidleR hcont
          · rw [if_neg (by simp [hi])]
            exact ih lastSnapshot hlast hsnapR hidleR hcont
    · -- snapshot succeeded with text trimming to blank
      have hnow : trimSpace now.last = "" := hsnap0 now hs
      rw [waitRounds]
      simp only [hs]
      rw [if_neg (by simp [hnow])]
      rw [if_neg (by simp [hnow])]
      rcases hst : round.state with _ | st
      · simp only [waitStateCheck, hst]
        exact ih now hnow hsnapR hidleR
          (herrTail (fun st' h => by rw [hst] at h; exact absurd h (by simp)))
      · by_cases he : isErrorStateGo st = true
        · refine ⟨st, ?_, he⟩
          simp only [waitStateCheck, hst]
          rw [if_pos he, if_neg (by simp [hnow])]
        · simp only [waitStateCheck, hst]
          rw [if_neg (by simp [he])]
          have hcont := herrTail (fun st' h => by
            rw [hst] at h
            cases Option.some.inj h
            simpa using he)
          by_cases hi : isIdleStateGo st = true
          · rw [if_pos hi]
            rcases hq : round.idleSnap with _ | snp
            · exact ih now hnow hsnapR hidleR hcont
            · simp only [hidle0 snp hq]
              simp only [ne_eq, not_true_eq_false, if_false]
              exact ih now hnow hsnapR hidleR hcont
          · rw [if_neg (by simp [hi])]
            exact ih now hnow hsnapR hidleR hcont

/-- Claim C3 (amended): the synchronous waiter, on observing an
error-like state (lowercased state containing `"error"`, `"failed"` or
`"abort"`), returns an error **only when the snapshot it holds at that
moment — this round's snapshot if the snapshot call succeeded, else the
last previously observed one (initially the pre-prompt snapshot) —
trims to empty**; when that snapshot text is non-empty it returns the
text as a successful result instead of an error.  Part (1) states this
as an exact case split at every observation point of the wait loop
(for any current `lastSnapshot`, i.e. at any depth of the recursion),
given that this round's snapshot-difference checks did not already
return before the state was queried; part (2) shows the error outcome
is actually reached: whenever the held snapshot and every polled text
are blank and some round reports an error-like state, the waiter
returns `errorState`. -/
theorem waiter_error_state_propagation :
    (∀ (previous lastSnapshot : AssistantSnapshot) (round : PollRound)
        (rest : List PollRound) (st : String),
      round.state = some st →
      isErrorStateGo st = true →
      (∀ s, round.snap = some s →
        ¬(s.count > previous.count ∧ trimSpace s.last ≠ "") ∧
        ¬(trimSpace s.last ≠ "" ∧ trimSpace s.last ≠ trimSpace previous.last)) →
      (∀ s, round.snap = some s → trimSpace s.last ≠ "" →
        waitRounds previous lastSnapshot (round :: rest) =
          WaitOutcome.text (trimSpace s.last)) ∧
      (round.snap = none → trimSpace lastSnapshot.last ≠ "" →
        waitRounds previous lastSnapshot (round :: rest) =
          WaitOutcome.text (trimSpace lastSnapshot.last)) ∧
      (∀ s, round.snap = some s → trimSpace s.last = "" →
        waitRounds previous lastSnapshot (round :: rest) =
          WaitOutcome.errorState st) ∧
      (round.snap = none → trimSpace lastSnapshot.last = "" →
        waitRounds previous lastSnapshot (round :: rest) =
          WaitOutcome.errorState st))
    ∧ (∀ (previous lastSnapshot : AssistantSnapshot) (rounds : List PollRound),
      trimSpace lastSnapshot.last = "" →
      (∀ r ∈ rounds, ∀ s, r.snap = some s → trimSpace s.last = "") →
      (∀ r ∈ rounds, ∀ s, r.idleSnap = some s → trimSpace s.last = "") →
      (∃ r ∈ rounds, ∃ st, r.state = some st ∧ isErrorStateGo st = true) →
      ∃ st, waitRounds previous lastSnapshot rounds = WaitOutcome.errorState st ∧
        isErrorStateGo st = true) := by
  constructor
  · intro previous lastSnapshot round rest st hst herr hpre
    refine ⟨?_, ?_, ?_, ?_⟩
    · intro s hs hns
      obtain ⟨h1, h2⟩ := hpre s hs
      rw [waitRounds]
      simp only [hs]
      rw [if_neg h1, if_neg h2]
      simp only [waitStateCheck, hst]
      rw [if_pos herr, if_pos hns]
    · intro hs hns
      rw [waitRounds]
      simp only [hs]
      simp only [waitStateCheck, hst]
      rw [if_pos herr, if_pos hns]
    · intro s hs hb
      rw [waitRounds]
      simp only [hs]
      rw [if_neg (by simp [hb]), if_neg (by simp [hb])]
      simp only [waitStateCheck, hst]
      rw [if_pos herr, if_neg (by simp [hb])]
    · intro hs hb
      rw [waitRounds]
      simp only [hs]
      simp only [waitStateCheck, hst]
      rw [if_pos herr, if_neg (by simp [hb])]
  · intro previous lastSnapshot rounds hlast hsnap hidle herr
    exact waiter_aux previous rounds lastSnapshot hlast hsnap hidle herr

/-- Witness for C3: both halves at concrete inputs.  A failed snapshot
call with blank held text and state `"failed"` yields the error-state
outcome; an unchanged non-blank snapshot `"hello"` with state `"error"`
yields the text as a success. -/
theorem waiter_error_state_witness :
    waitRounds ⟨0, ""⟩ ⟨0, ""⟩ [⟨none, some "failed", none⟩] =
        WaitOutcome.errorState "failed"
    ∧ waitRounds ⟨1, "hello"⟩ ⟨1, "hello"⟩
        [⟨some ⟨1, "hello"⟩, some "error", none⟩] =
        WaitOutcome.text (trimSpace "hello") := by
  constructor
  · exact (waiter_error_state_propagation.1 ⟨0, ""⟩ ⟨0, ""⟩
      ⟨none, some "failed", none⟩ [] "failed" rfl (by decide)
      (fun s hs => by simp at hs)).2.2.2 rfl (by decide)
  · refine (waiter_error_state_propagation.1 ⟨1, "hello"⟩ ⟨1, "hello"⟩
      ⟨some ⟨1, "hello"⟩, some "error", none⟩ [] "error" rfl (by decide)
      ?_).1 ⟨1, "hello"⟩ rfl (by decide)
    intro s hs
    cases Option.some.inj hs
    exact ⟨by decide, by decide⟩

/-- Counterexample to C3 as stated: the session already had one
assistant message `"hello"` before the prompt; the poll observes an
unchanged snapshot and then the state `"error"`.  The claim says the
waiter returns an error to the dispatcher; the code instead returns the
cached snapshot text `"hello"` as a successful result (bridge_service.go
lines 649–653). -/
theorem waiter_error_state_counterexample :
    waitRounds ⟨1, "hello"⟩ ⟨1, "hello"⟩
        [⟨some ⟨1, "hello"⟩, some "error", none⟩] = WaitOutcome.text "hello"
      ∧ isErrorStateGo "error" = true := ⟨rfl, rfl⟩

/-! ### Relay lemmas shared by claims C4, C5 and C10 -/

theorem dispatchGo_cases (env : RelayEnv) (cache : RelayCache) (sid t : String) :
    (trimSpace t = "" ∧ dispatchGo env cache sid t = ([], cache)) ∨
    (trimSpace t ≠ "" ∧ dispatchGo env cache sid t =
      ((env.recipients sid).map (fun chat => (chat, t)), eraseA sid cache)) := by
  rw [dispatchGo]
  by_cases h : trimSpace t = ""
  · exact Or.inl ⟨h, by rw [if_pos h]⟩
  · exact Or.inr ⟨h, by rw [if_neg h]⟩

theorem onSessionIdle_cases (cfg : RelayCfg) (env : RelayEnv)
    (cache : RelayCache) (sid : String) :
    onSessionIdle cfg env cache sid = ([], cache) ∨
    ∃ t, onSessionIdle cfg env cache sid = dispatchGo env cache sid t := by
  have hfb : idleFallback cfg env cache sid = ([], cache) ∨
      ∃ t, idleFallback cfg env cache sid = dispatchGo env cache sid t := by
    rw [idleFallback]
    rcases hf : cfg.fallback with _ | _
    · rw [if_pos (by simp)]
      exact Or.inl rfl
    · rw [if_neg (by simp)]
      exact Or.inr ⟨_, rfl⟩
  rw [onSessionIdle]
  rcases hb : cfg.modeFinal with _ | _
  · rw [if_pos (by simp)]
    exact Or.inr ⟨_, rfl⟩
  · rw [if_neg (by simp)]
    split
    · rename_i e heq
      by_cases hc : (e.final && decide (trimSpace e.text ≠ "")) = true
      · rw [if_pos hc]
        exact Or.inr ⟨_, rfl⟩
      · rw [if_neg hc]
        exact hfb
    · exact hfb

theorem relay_final_silent (env : RelayEnv) (cache : RelayCache) (sid : String)
    (h : ∀ e, lookupA sid cache = some e → e.final = false ∨ trimSpace e.text = "") :
    onSessionIdle ⟨true, false⟩ env cache sid = ([], cache) := by
  have hfb : idleFallback ⟨true, false⟩ env cache sid = ([], cache) := rfl
  rw [onSessionIdle]
  rw [if_neg (by simp)]
  split
  · rename_i e heq
    rcases h e heq with hf | ht
    · rw [if_neg (by simp [hf])]
      exact hfb
    · rw [if_neg (by simp [ht])]
      exact hfb
  · exact hfb

/-! ### Claim C5: final-mode fallback discipline -/

/-- Claim C5: in `final` mode with fallback disabled, handling a
`session.idle` event performs no Telegram send (and leaves the cache
untouched) unless the cached entry for the session exists, is marked
final, and has non-blank trimmed text: whenever every cached entry for
the session is non-final or blank (in particular when there is none),
`onSessionIdle` dispatches nothing. -/
theorem relay_final_mode_discipline (env : RelayEnv) (cache : RelayCache)
    (sid : String)
    (h : ∀ e, lookupA sid cache = some e → e.final = false ∨ trimSpace e.text = "") :
    onSessionIdle ⟨true, false⟩ env cache sid = ([], cache) :=
  relay_final_silent env cache sid h

/-- Witness for C5: a non-final cached draft, fallback disabled — the
idle event sends nothing and keeps the cache. -/
theorem relay_final_mode_discipline_witness :
    onSessionIdle ⟨true, false⟩ ⟨fun _ => [10], fun _ => ""⟩
        [("ses_1", ⟨"draft", false⟩)] "ses_1" =
      ([], [("ses_1", ⟨"draft", false⟩)]) := by
  apply relay_final_mode_discipline
  intro e he
  cases Option.some.inj he
  exact Or.inl rfl

/-! ### Claim C4: relay at-most-once per idle, cache removal -/

/-- Claim C4 (amended): for every `session.idle` event, (1) the relay
performs at most one Telegram send per recipient returned by the
reverse-index lookup — the send list is either empty or exactly one send
of a single non-blank text to each listed recipient chat; (2) whenever
at least one send is performed, the cache entry for the session has been
deleted; (3) however, in `final` mode with fallback disabled, if no
final non-blank entry is cached, nothing is sent and the cache —
including any non-final entry for that session — is retained, contrary
to the claim as stated (see the counterexample). -/
theorem relay_idle_dispatch :
    (∀ (cfg : RelayCfg) (env : RelayEnv) (cache : RelayCache) (sid : String),
      (onSessionIdle cfg env cache sid).1 = [] ∨
      ∃ t, trimSpace t ≠ "" ∧
        (onSessionIdle cfg env cache sid).1 =
          (env.recipients sid).map (fun chat => (chat, t)))
    ∧ (∀ (cfg : RelayCfg) (env : RelayEnv) (cache : RelayCache) (sid : String),
      (onSessionIdle cfg env cache sid).1 ≠ [] →
      lookupA sid (onSessionIdle cfg env cache sid).2 = none)
    ∧ (∀ (env : RelayEnv) (cache : RelayCache) (sid : String),
      (∀ e, lookupA sid cache = some e → e.final = false ∨ trimSpace e.text = "") →
      onSessionIdle ⟨true, false⟩ env cache sid = ([], cache)) := by
  refine ⟨?_, ?_, fun env cache sid h => relay_final_silent env cache sid h⟩
  · intro cfg env cache sid
    rcases onSessionIdle_cases cfg env cache sid with heq | ⟨t, heq⟩
    · exact Or.inl (by rw [heq])
    · rcases dispatchGo_cases env cache sid t with ⟨_, hd⟩ | ⟨hne, hd⟩
      · exact Or.inl (by rw [heq, hd])
      · exact Or.inr ⟨t, hne, by rw [heq, hd]⟩
  · intro cfg env cache sid hne
    rcases onSessionIdle_cases cfg env cache sid with heq | ⟨t, heq⟩
    · exact absurd (by rw [heq]) hne
    · rcases dispatchGo_cases env cache sid t with ⟨_, hd⟩ | ⟨_, hd⟩
      · exact absurd (by rw [heq, hd]) hne
      · rw [heq, hd]
        exact lookupA_eraseA_self _ _

/-- Witness for C4: `last` mode, one recipient, a cached text — the idle
event dispatches and the cache entry is gone. -/
theorem relay_idle_dispatch_witness :
    lookupA "ses_1" (onSessionIdle ⟨false, true⟩ ⟨fun _ => [10], fun _ => ""⟩
      [("ses_1", ⟨"hola", false⟩)] "ses_1").2 = none :=
  relay_idle_dispatch.2.1 ⟨false, true⟩ ⟨fun _ => [10], fun _ => ""⟩
    [("ses_1", ⟨"hola", false⟩)] "ses_1" (by decide)

/-- Counterexample to C4 as stated: `final` mode with fallback disabled,
a non-final `message.updated` for `ses_1` followed by `session.idle`.
The handler returns before dispatching (relay_service.go lines 119–121)
and never deletes the entry, so after the idle event the cache still
holds `ses_1` — the claim asserts the cache holds no entry for the
session after every idle event. -/
theorem relay_idle_cache_retained_counterexample :
    lookupA "ses_1" (processEvents ⟨true, false⟩ ⟨fun _ => [10], fun _ => ""⟩ []
      [⟨"message.updated", "ses_1", "draft", false⟩,
       ⟨"session.idle", "ses_1", "", false⟩]).1 = some ⟨"draft", false⟩ := rfl

/-! ### Claim C10: relay cache non-blank-text invariant -/

theorem cacheWF_updateCache (ev : Event) (cache : RelayCache)
    (h : ∀ sid e, lookupA sid cache = some e → trimSpace e.text ≠ "") :
    ∀ sid e, lookupA sid (updateCache ev cache) = some e →
      trimSpace e.text ≠ "" := by
  intro sid e he
  rw [updateCache] at he
  split at he
  · exact h sid e he
  · rename_i hne
    rw [lookupA_insertA] at he
    split at he
    · cases Option.some.inj he
      exact hne
    · exact h sid e he

theorem cacheWF_onSessionIdle (cfg : RelayCfg) (env : RelayEnv)
    (cache : RelayCache) (sid0 : String)
    (h : ∀ sid e, lookupA sid cache = some e → trimSpace e.text ≠ "") :
    ∀ sid e, lookupA sid (onSessionIdle cfg env cache sid0).2 = some e →
      trimSpace e.text ≠ "" := by
  rcases onSessionIdle_cases cfg env cache sid0 with heq | ⟨t, heq⟩
  · rw [heq]; exact h
  · rcases dispatchGo_cases env cache sid0 t with ⟨_, hd⟩ | ⟨_, hd⟩
    · rw [heq, hd]; exact h
    · rw [heq, hd]
      exact fun sid e he => h sid e (lookupA_eraseA_some _ _ _ _ he)

theorem cacheWF_handleEvent (cfg : RelayCfg) (env : RelayEnv)
    (cache : RelayCache) (ev : Event)
    (h : ∀ sid e, lookupA sid cache = some e → trimSpace e.text ≠ "") :
    ∀ sid e, lookupA sid (handleEvent cfg env cache ev).2 = some e →
      trimSpace e.text ≠ "" := by
  rw [handleEvent]
  split
  · exact h
  · split
    · exact cacheWF_updateCache ev cache h
    · split
      · exact cacheWF_onSessionIdle cfg env cache ev.sessionID h
      · exact h

theorem cacheWF_processEvents (cfg : RelayCfg) (env : RelayEnv) :
    ∀ (evs : List Event) (cache : RelayCache),
      (∀ sid e, lookupA sid cache = some e → trimSpace e.text ≠ "") →
      ∀ sid e, lookupA sid (processEvents cfg env cache evs).1 = some e →
        trimSpace e.text ≠ "" := by
  intro evs
  induction evs with
  | nil => intro cache h; exact h
  | cons ev rest ih =>
    intro cache h
    rw [processEvents]
    exact ih _ (cacheWF_handleEvent cfg env cache ev h)

/-- Claim C10: every entry in the relay cache has text that is non-empty
after whitespace trimming.  Concretely: (1) running the relay from its
empty initial cache over any event sequence leaves only entries with
non-blank trimmed text; (2) a `message.updated` event whose text trims
to empty never creates or overwrites a cache entry; (3) every text
dispatched on an idle event is non-blank. -/
theorem relay_cache_nonblank :
    (∀ (cfg : RelayCfg) (env : RelayEnv) (evs : List Event) (sid : String)
        (e : CacheEntry),
      lookupA sid (processEvents cfg env [] evs).1 = some e →
      trimSpace e.text ≠ "")
    ∧ (∀ (ev : Event) (cache : RelayCache), trimSpace ev.text = "" →
      updateCache ev cache = cache)
    ∧ (∀ (cfg : RelayCfg) (env : RelayEnv) (cache : RelayCache) (sid : String)
        (p : Int × String),
      p ∈ (onSessionIdle cfg env cache sid).1 → trimSpace p.2 ≠ "") := by
  refine ⟨?_, ?_, ?_⟩
  · intro cfg env evs sid e he
    exact cacheWF_processEvents cfg env evs []
      (fun sid' e' he' => by simp [lookupA] at he') sid e he
  · intro ev cache h
    rw [updateCache, if_pos h]
  · intro cfg env cache sid p hp
    rcases onSessionIdle_cases cfg env cache sid with heq | ⟨t, heq⟩
    · rw [heq] at hp
      exact absurd hp (by simp)
    · rcases dispatchGo_cases env cache sid t with ⟨_, hd⟩ | ⟨hne, hd⟩
      · rw [heq, hd] at hp
        exact absurd hp (by simp)
      · rw [heq, hd] at hp
        obtain ⟨chat, _, hpe⟩ := List.mem_map.mp hp
        rw [← hpe]
        exact hne

/-- Witness for C10: after one non-blank `message.updated`, the cache
holds an entry for the session, and its text is non-blank. -/
theorem relay_cache_nonblank_witness :
    trimSpace (CacheEntry.mk "hola" false).text ≠ "" :=
  relay_cache_nonblank.1 ⟨false, true⟩ ⟨fun _ => [], fun _ => ""⟩
    [⟨"message.updated", "ses_1", "hola", false⟩] "ses_1" ⟨"hola", false⟩
    (by decide)

/-! ### Claim C6: callback-data validation atomicity -/

theorem trimPrefixStr_append (p x : String) :
    trimPrefixStr (p ++ x) p = x := by
  rw [trimPrefixStr]
  rw [if_pos (by
    rw [hasPrefixStr, dataAppend]
    exact List.isPrefixOf_iff_prefix.mpr (List.prefix_append _ _))]
  rw [dataAppend, List.drop_left]

/-- Claim C6 (amended): for every callback query whose (trimmed) data has
the form `session_use:X` with `X` not matching `ses_[A-Za-z0-9]+`:
`SessionService.SetSession` is never invoked; if the query carries a
message, the dispatcher answers the callback with the rejection
`"Sesion invalida"`; but a query carrying **no** message is dropped
before validation with no answer at all (and still no mutation) — the
claim as stated, which promises a rejection answer for every such query,
fails on message-less queries (see the counterexample). -/
theorem callback_validation (allowed : Int → Bool) (setOk : Bool)
    (q : CallbackQuery) (x : String)
    (hform : trimSpace q.data = "session_use:" ++ x)
    (hbad : matchesSessionID x = false) :
    (handleCallbackQuery allowed setOk q).setCalls = []
    ∧ (∀ chat, q.messageChat = some chat →
        (handleCallbackQuery allowed setOk q).answers = [(q.id, "Sesion invalida")])
    ∧ (q.messageChat = none →
        handleCallbackQuery allowed setOk q = emptyEffects) := by
  have hne : trimSpace q.data ≠ "" := by
    rw [hform]
    intro h
    have h2 := congrArg String.data h
    rw [dataAppend] at h2
    simp at h2
  have hpre : hasPrefixStr (trimSpace q.data) "session_use:" = true := by
    rw [hform, hasPrefixStr, dataAppend]
    exact List.isPrefixOf_iff_prefix.mpr (List.prefix_append _ _)
  have hsid : trimPrefixStr (trimSpace q.data) "session_use:" = x := by
    rw [hform]
    exact trimPrefixStr_append _ _
  rcases hm : q.messageChat with _ | chat
  · refine ⟨?_, ?_, fun _ => ?_⟩
    · simp only [handleCallbackQuery, hm]
      rfl
    · intro chat h
      exact absurd h (by simp)
    · simp only [handleCallbackQuery, hm]
  · have heval : handleCallbackQuery allowed setOk q =
        { emptyEffects with answers := [(q.id, "Sesion invalida")] } := by
      simp only [handleCallbackQuery, hm]
      rw [if_neg hne]
      rw [if_neg (by simp [hpre])]
      rw [hsid]
      rw [if_pos (by simp [hbad])]
    refine ⟨?_, ?_, ?_⟩
    · rw [heval]
      rfl
    · intro chat' _
      rw [heval]
    · intro h
      exact absurd h (by simp)

/-- Witness for C6: data `"session_use:abc"` (where `"abc"` lacks the
`ses_` shape) on a query that carries a message — answered with
`"Sesion invalida"`, and no `SetSession` call. -/
theorem callback_validation_witness :
    (handleCallbackQuery (fun _ => true) true
        ⟨"q1", 7, some 100, "session_use:abc"⟩).setCalls = []
    ∧ (handleCallbackQuery (fun _ => true) true
        ⟨"q1", 7, some 100, "session_use:abc"⟩).answers =
      [("q1", "Sesion invalida")] := by
  have h := callback_validation (fun _ => true) true
    ⟨"q1", 7, some 100, "session_use:abc"⟩ "abc" (by decide) (by decide)
  exact ⟨h.1, h.2.1 100 rfl⟩

/-- Counterexample to C6 as stated: the data has the required form
`session_use:X` with invalid `X = "abc"`, but the query carries no
message, so the dispatcher returns at the `query.Message == nil` guard
(bridge_service.go line 170) without answering the callback — no
rejection answer is sent, contradicting "answers the callback with a
rejection". -/
theorem callback_validation_counterexample :
    trimSpace "session_use:abc" = "session_use:" ++ "abc"
    ∧ matchesSessionID "abc" = false
    ∧ handleCallbackQuery (fun _ => true) true
        ⟨"q1", 42, none, "session_use:abc"⟩ = emptyEffects :=
  ⟨by decide, by decide, rfl⟩

/-! ### Claim C7: polling transport contract -/

theorem foldl_offset_eq (ids : List Int) :
    ∀ off : Int,
      ids.foldl (fun acc id => if id ≥ acc then id + 1 else acc) off =
        ids.foldl (fun a i => max a (i + 1)) off := by
  induction ids with
  | nil => intro _; rfl
  | cons i t ih =>
    intro off
    have hstep : (if i ≥ off then i + 1 else off) = max off (i + 1) := by
      split <;> omega
    rw [List.foldl_cons, List.foldl_cons, hstep, ih]

theorem foldl_max_shift (l : List Int) :
    ∀ a : Int,
      l.foldl (fun x i => max x (i + 1)) (a + 1) = l.foldl max a + 1 := by
  induction l with
  | nil => intro _; rfl
  | cons i t ih =>
    intro a
    rw [List.foldl_cons, List.foldl_cons,
      show max (a + 1) (i + 1) = max a i + 1 from max_add_add_right a i 1]
    exact ih (max a i)

/-- Claim C7 (amended): every `getUpdates` long-poll request carries a
**fixed** `timeout` of 30 seconds and `allowed_updates = ["message"]` —
the configured polling interval is not consulted and `callback_query` is
not requested (see the counterexample) — and the offset bookkeeping is
as claimed: after any sequence of batches, the offset carried into the
next request is `max(update ids seen, -1) + 1`, i.e. the maximum
update id seen so far plus one (`0` while nothing has been seen). -/
theorem polling_request_contract :
    (∀ off : Int, getUpdatesBody off =
      { offset := off, timeout := 30, allowedUpdates := ["message"] })
    ∧ (∀ batches : List (List Int),
      pollOffset batches = batches.flatten.foldl max (-1) + 1) := by
  refine ⟨fun _ => rfl, ?_⟩
  intro batches
  have h0 : batches.foldl advanceOffset 0 =
      batches.flatten.foldl (fun acc id => if id ≥ acc then id + 1 else acc) 0 :=
    (List.foldl_flatten _ _ _).symm
  have h1 := foldl_max_shift batches.flatten (-1)
  norm_num at h1
  rw [pollOffset, h0, foldl_offset_eq, h1]

/-- Counterexample to C7 as stated: with the default polling interval of
2 seconds the claim requires `timeout = clamp(2, 1, 50) = 2` and
`allowed_updates = ["message", "callback_query"]`; the request body
hardcodes `timeout = 30` and `allowed_updates = ["message"]`
(runtime.go lines 105–109). -/
theorem polling_request_counterexample :
    (getUpdatesBody 0).timeout ≠ min 50 (max 1 2)
    ∧ (getUpdatesBody 0).allowedUpdates ≠ ["message", "callback_query"] :=
  ⟨by decide, by decide⟩

/-! ### Claim C8: SSE event round-trip -/

theorem trimLeftList_head (l : List Char) :
    ∀ c, (trimLeftList l).head? = some c → isSpaceGo c = false := by
  induction l with
  | nil => intro c h; simp [trimLeftList] at h
  | cons a t ih =>
    intro c h
    by_cases ha : isSpaceGo a = true
    · rw [trimLeftList, if_pos ha] at h
      exact ih c h
    · rw [trimLeftList, if_neg ha] at h
      simp at h
      rw [← h]
      simpa using ha

theorem trimLeftList_id_of_head (l : List Char)
    (h : ∀ c, l.head? = some c → isSpaceGo c = false) : trimLeftList l = l := by
  cases l with
  | nil => rfl
  | cons a t => rw [trimLeftList, if_neg (by simp [h a rfl])]

theorem trimLeftList_getLast (l : List Char) :
    trimLeftList l = [] ∨ (trimLeftList l).getLast? = l.getLast? := by
  induction l with
  | nil => exact Or.inl rfl
  | cons a t ih =>
    by_cases ha : isSpaceGo a = true
    · rw [trimLeftList, if_pos ha]
      rcases ih with h | h
      · exact Or.inl h
      · rcases t with _ | ⟨b, t'⟩
        · exact Or.inl rfl
        · exact Or.inr (by rw [h]; exact (List.getLast?_cons_cons ..).symm)
    · rw [trimLeftList, if_neg ha]
      exact Or.inr rfl

theorem trimList_idem (l : List Char) : trimList (trimList l) = trimList l := by
  have h1 : trimLeftList ((trimLeftList ((trimLeftList l).reverse)).reverse) =
      (trimLeftList ((trimLeftList l).reverse)).reverse := by
    apply trimLeftList_id_of_head
    intro c hc
    rw [List.head?_reverse] at hc
    rcases trimLeftList_getLast ((trimLeftList l).reverse) with h | h
    · rw [h] at hc
      simp at hc
    · rw [h, List.getLast?_reverse] at hc
      exact trimLeftList_head l c hc
  show trimList ((trimLeftList ((trimLeftList l).reverse)).reverse) = _
  rw [trimList, h1, List.reverse_reverse]
  congr 1
  apply trimLeftList_id_of_head
  intro c hc
  exact trimLeftList_head _ c hc

theorem trimSpace_idem (s : String) : trimSpace (trimSpace s) = trimSpace s := by
  show (⟨trimList (trimList s.data)⟩ : String) = ⟨trimList s.data⟩
  rw [trimList_idem]

/-- Claim C8: for every well-formed SSE data payload that decodes to a
JSON object with a (non-blank) top-level `type` string and a nested
`data` object carrying string fields `sessionID` and `text`, the parser
emits exactly one event whose `sessionId` and `text` equal the payload's
values after whitespace trimming (and `final` defaults to `false`, no
final markers being present). -/
theorem sse_event_roundtrip (t sid txt : String) (ht : trimSpace t ≠ "") :
    parseSSEData (Json.obj [("type", Json.str t),
        ("data", Json.obj [("sessionID", Json.str sid), ("text", Json.str txt)])]) =
      some ⟨trimSpace t, trimSpace sid, trimSpace txt, false⟩ := by
  have hz : trimSpace "" = "" := rfl
  by_cases hsid : trimSpace sid = "" <;> by_cases htxt : trimSpace txt = "" <;>
    simp [parseSSEData, firstStringJ, extractTextJ, lookupA, ht, hsid, htxt,
      trimSpace_idem, hz]

/-- Witness for C8: payload type `"message.updated"`, padded session id
and text — the emitted event carries the trimmed values. -/
theorem sse_event_roundtrip_witness :
    parseSSEData (Json.obj [("type", Json.str "message.updated"),
        ("data", Json.obj [("sessionID", Json.str " ses_1 "),
          ("text", Json.str " hola ")])]) =
      some ⟨trimSpace "message.updated", trimSpace " ses_1 ",
        trimSpace " hola ", false⟩ :=
  sse_event_roundtrip "message.updated" " ses_1 " " hola " (by decide)

/-! ### Claim C9: timestamp normalization -/

/-- Claim C9: `parseTimestamp("6:03 PM")` is strictly positive (today's
local midnight plus 18:03, with `time.Now` abstracted as a non-negative
midnight instant); `"1739714400"` (seconds), `"1739714400000"`
(milliseconds) and `"1739714400000000"` (microseconds) all normalize to
the same millisecond value 1739714400000 by the magnitude-based scaling
of `normalizeUnixMillis`; and `parseTimestamp("not-a-date")` is `0`. -/
theorem timestamp_normalization (nowMidnightMs : Int) (h : 0 ≤ nowMidnightMs) :
    0 < parseTimestamp nowMidnightMs "6:03 PM"
    ∧ parseTimestamp nowMidnightMs "1739714400" =
        parseTimestamp nowMidnightMs "1739714400000"
    ∧ parseTimestamp nowMidnightMs "1739714400000" =
        parseTimestamp nowMidnightMs "1739714400000000"
    ∧ parseTimestamp nowMidnightMs "not-a-date" = 0 := by
  refine ⟨?_, rfl, rfl, rfl⟩
  have he : parseTimestamp nowMidnightMs "6:03 PM" = nowMidnightMs + 64980000 := rfl
  rw [he]
  omega

/-- Witness for C9: the conjunction instantiated at midnight instant 0. -/
theorem timestamp_normalization_witness :
    0 < parseTimestamp 0 "6:03 PM"
    ∧ parseTimestamp 0 "1739714400" = parseTimestamp 0 "1739714400000"
    ∧ parseTimestamp 0 "1739714400000" = parseTimestamp 0 "1739714400000000"
    ∧ parseTimestamp 0 "not-a-date" = 0 :=
  timestamp_normalization 0 (by decide)

end OCB
